import Mathlib

/-!
Verification development for the MRphy spin-simulation library
(`mrphy/slowsims.py` and `mrphy/mobjs.py`).

The physics routines (`freeprec`, `blochsim`) are embedded over the reals,
modelling one spin (or a list of spins for the batched simulator) as a
3-vector of real numbers.  The masked data model (`SpinArray.embed`,
`SpinArray.extract`, `SpinArray.crds_`, the attribute-setter shape logic and
the `SpinCube` location invariant) is embedded with dense positions indexed
by `Fin K` (the spatial grid flattened in row-major order, which is the
order in which both boolean mask indexing and `view(-1)` traverse a torch
tensor) and compact positions indexed by positions of the masked-index list.

Two helper functions of the repository, `mrphy.beffective.beff2uϕ` and
`mrphy.utils.uϕrot` (and `mrphy.utils.ctrsub`), are imported by the sources
under verification but their defining module is not part of the sources at
hand; they are modelled from the specification text and marked as such.
-/

open Real

/-- A magnetization or field 3-vector, one spin's worth of the trailing
`xyz` axis of the `(N, *Nd, xyz)` tensors in `slowsims.py`. -/
structure Vec3 where
  x : ℝ
  y : ℝ
  z : ℝ

namespace Vec3

/-- Squared Euclidean norm of a 3-vector. -/
def normSq (v : Vec3) : ℝ := v.x ^ 2 + v.y ^ 2 + v.z ^ 2

/-- Euclidean norm, as `torch.norm` over the `xyz` axis. -/
noncomputable def norm (v : Vec3) : ℝ := Real.sqrt v.normSq

/-- Dot product of 3-vectors. -/
def dot (a b : Vec3) : ℝ := a.x * b.x + a.y * b.y + a.z * b.z

/-- Cross product of 3-vectors. -/
def cross (a b : Vec3) : Vec3 :=
  ⟨a.y * b.z - a.z * b.y, a.z * b.x - a.x * b.z, a.x * b.y - a.y * b.x⟩

/-- Scalar multiple of a 3-vector. -/
def smul (c : ℝ) (v : Vec3) : Vec3 := ⟨c * v.x, c * v.y, c * v.z⟩

/-- Sum of 3-vectors. -/
def add (a b : Vec3) : Vec3 := ⟨a.x + b.x, a.y + b.y, a.z + b.z⟩

end Vec3

/-- Modelled from the spec (the defining module `mrphy.beffective` is not
among the sources at hand): "Convert b into a rotation axis/unit-vector u
and rotation angle φ using the standard relation: angle φ = |γ·2π·dt·b|
magnitude (scaled gyro-angular-step times field magnitude), axis
u = b normalized (undefined axis when φ=0, handled by the no-rotation
branch)".  For `b = 0` real division yields the zero vector where the
source would yield an undefined (NaN) axis; every claim below either
skips the rotation there or assumes `b ≠ 0`, so the junk value is never
relied upon. -/
noncomputable def beff2uϕ (b : Vec3) (γ2πdt : ℝ) : Vec3 × ℝ :=
  (Vec3.smul (Vec3.norm b)⁻¹ b, |γ2πdt| * Vec3.norm b)

/-- Modelled from the spec (the defining module `mrphy.utils` is not among
the sources at hand): "rotate M about axis u by angle φ using Rodrigues'
rotation formula (exact, not linearized)":
`M' = cosφ·M + sinφ·(u × M) + (1-cosφ)·(u·M)·u`. -/
noncomputable def uϕrot (u : Vec3) (φ : ℝ) (M : Vec3) : Vec3 :=
  Vec3.add (Vec3.add (Vec3.smul (Real.cos φ) M)
      (Vec3.smul (Real.sin φ) (Vec3.cross u M)))
    (Vec3.smul ((1 - Real.cos φ) * Vec3.dot u M) u)

/-- The relaxation update of one `blochsim` step (`slowsims.py` lines
100-102): transverse components scaled by `E2`, longitudinal component
mapped to `E1*z - (E1 - 1)` (the code multiplies by `E1` then subtracts
`E1_1 = E1 - 1`). -/
def relax (E1 E2 : ℝ) (M : Vec3) : Vec3 :=
  ⟨E2 * M.x, E2 * M.y, E1 * M.z - (E1 - 1)⟩

open Classical in
/-- One iteration of the `blochsim` time loop (`slowsims.py` lines 93-104)
over a batch of spins: compute `(u, φ)` per spin from the per-spin field,
rotate every spin if any `φ ≠ 0` in the batch (otherwise `M1 = M`), then
apply the relaxation update. -/
noncomputable def blochstep (γ2πdt E1 E2 : ℝ) (Ms bs : List Vec3) : List Vec3 :=
  let uφ := bs.map (beff2uϕ · γ2πdt)
  let M1 := if ∃ p ∈ uφ, p.2 ≠ 0 then
      List.zipWith (fun (p : Vec3 × ℝ) M => uϕrot p.1 p.2 M) uφ Ms
    else Ms
  M1.map (relax E1 E2)

/-- The `blochsim` simulator (`slowsims.py` lines 52-106): precompute
`E1 = exp(-dt/T1)` and `E2 = exp(-dt/T2)` (both `1` when the respective
relaxation constant is absent) and `γ2πdt = 2π·γ·dt`, then fold the
per-time-step update over the field sequence `Beff` (outer list: time
steps, inner list: the batch of spins). -/
noncomputable def blochsim (M : List Vec3) (Beff : List (List Vec3))
    (T1 T2 : Option ℝ) (γ dt : ℝ) : List Vec3 :=
  let E1 : ℝ := match T1 with
    | none => 1
    | some t1 => Real.exp (-dt / t1)
  let E2 : ℝ := match T2 with
    | none => 1
    | some t2 => Real.exp (-dt / t2)
  let γ2πdt := 2 * Real.pi * γ * dt
  Beff.foldl (fun Ms bs => blochstep γ2πdt E1 E2 Ms bs) M

/-- The `freeprec` routine (`slowsims.py` lines 126-166) for one spin.
Precession: when `Δf` is present, rotate `(x, y)` by `φ = -2π·Δf·dur`.
Then `assert((T1 is None) == (T2 is None))` — modelled as returning `none`
(the raised `AssertionError`) when exactly one of `T1`, `T2` is present —
and, when both are present, relaxation with `E1 = exp(-dur/T1)`,
`E2 = exp(-dur/T2)`: `(E2*x, E2*y, E1*z + 1 - E1)`. -/
noncomputable def freeprec (M : Vec3) (dur : ℝ) (T1 T2 Δf : Option ℝ) :
    Option Vec3 :=
  let mxy : ℝ × ℝ := match Δf with
    | none => (M.x, M.y)
    | some δf =>
      let φ := -(2 * Real.pi) * δf * dur
      (Real.cos φ * M.x - Real.sin φ * M.y,
       Real.sin φ * M.x + Real.cos φ * M.y)
  if T1.isNone = T2.isNone then
    match T1, T2 with
    | some t1, some t2 =>
      some ⟨Real.exp (-dur / t2) * mxy.1,
            Real.exp (-dur / t2) * mxy.2,
            Real.exp (-dur / t1) * M.z + 1 - Real.exp (-dur / t1)⟩
    | _, _ => some ⟨mxy.1, mxy.2, M.z⟩
  else none

namespace SpinArray

/-- The list of masked-in dense positions, in row-major traversal order of
the flattened spatial grid `Fin K` — the order in which boolean mask
indexing (`v[mask]`, `out[mask] = ...`) and `view(-1)` traverse a
contiguous torch tensor. -/
def maskedIdx {K : ℕ} (mask : Fin K → Bool) : List (Fin K) :=
  (List.finRange K).filter (fun k => mask k)

/-- The number of masked-in positions, `nM = mask.sum().item()`. -/
abbrev nM {K : ℕ} (mask : Fin K → Bool) : ℕ := (maskedIdx mask).length

/-- The `SpinArray.extract` gather (`mobjs.py` lines 318-334): per batch
element, select the masked-in entries of a dense array into compact layout
`(N, nM, ...)`; trailing dimensions are absorbed into the element type `α`.
The source writes `v[mask]` (row-major gather of masked entries) into the
flat view of the output buffer. -/
def extract {α : Type*} {N K : ℕ} (mask : Fin K → Bool)
    (v : Fin N → Fin K → α) : Fin N → Fin (nM mask) → α :=
  fun n j => v n ((maskedIdx mask).get j)

/-- The `SpinArray.embed` scatter (`mobjs.py` lines 301-316): allocate a
dense output filled with the sentinel (`new_full(oshape, float('NaN'))`,
the sentinel value abstracted as a parameter of the element type), then
scatter the compact rows into the masked-in positions in row-major order
(`out[mask] = v_.view(-1, ...)`). -/
def embed {α : Type*} {N K : ℕ} (mask : Fin K → Bool) (sentinel : α)
    (v_ : Fin N → Fin (nM mask) → α) : Fin N → Fin K → α :=
  fun n k =>
    if h : mask k then
      v_ n ⟨(maskedIdx mask).indexOf k,
            List.indexOf_lt_length.mpr
              (List.mem_filter.mpr ⟨List.mem_finRange k, h⟩)⟩
    else sentinel

/-- The compact-index table of `SpinArray.crds_` (`mobjs.py` lines
291-292): `m = zeros(mask.shape) - 1; m[mask] = arange(nM)` — a dense
array holding, at each masked-in position, its rank among the masked-in
positions in row-major order, and `-1` elsewhere. -/
def compactIndexTable {K : ℕ} (mask : Fin K → Bool) : Fin K → ℤ :=
  fun k => if mask k then ((maskedIdx mask).indexOf k : ℤ) else -1

/-- The `SpinArray.crds_` coordinate translation (`mobjs.py` lines
279-297) for a scalar spatial index: the input coordinates are the batch
index `b`, the (flattened) spatial index `k` and the trailing-dimension
indices `trail`; the output keeps `b` and `trail` and replaces `k` by the
list of compact-index-table entries at the selected spatial positions with
the `-1` entries filtered out (`inds_ = [ind_ for ind_ in ... if ind_ != -1]`). -/
def crds_ {K : ℕ} (mask : Fin K → Bool) (b : ℕ) (k : Fin K)
    (trail : List ℕ) : ℕ × List ℤ × List ℕ :=
  (b, ([compactIndexTable mask k].filter (fun i => i ≠ -1)), trail)

/-- Shape semantics of `torch.Tensor.expand(target)`: the input shape is
aligned with the target from the trailing side; each input dimension must
equal the target dimension or be `1`, and the input may not have more
dimensions than the target.  Takes both shapes reversed (trailing
dimension first). -/
def expandOkRev : List ℕ → List ℕ → Bool
  | [], _ => true
  | _ :: _, [] => false
  | a :: s, t :: ts => (a = 1 || a = t) && expandOkRev s ts

/-- Shape-level result of `v.expand(target)`: the target shape when the
input shape is broadcastable to it, failure otherwise. -/
def expandShape (s target : List ℕ) : Option (List ℕ) :=
  if expandOkRev s.reverse target.reverse then some target else none

/-- Shape-level semantics of `SpinArray.__setattr__` (`mobjs.py` lines
211-231) for the compact attributes.  `shape` is the object's `(N, *Nd)`
shape, `nM` its masked-in count.  `isDense` tells whether the assignment
addressed the dense name (`M`, `T1`, ...), in which case the source
asserts `v_.shape[:ndim] == self.shape` and extracts, producing shape
`(N, nM) + v_.shape[ndim:]`; `isM` tells whether the attribute is `M_`
(target `(N, nM, 3)`, expanded only when not already of that shape) as
opposed to `T1_`/`T2_`/`γ_` (always expanded to `(N, nM)`). -/
def setattrShape (shape : List ℕ) (nM : ℕ) (isM isDense : Bool)
    (vshape : List ℕ) : Option (List ℕ) :=
  let N := shape.headD 0
  let ndim := shape.length
  match (if isDense then
      (if vshape.take ndim = shape then
        some ([N, nM] ++ vshape.drop ndim) else none)
    else some vshape) with
  | none => none
  | some s =>
    if isM then
      if s = [N, nM, 3] then some s else expandShape s [N, nM, 3]
    else expandShape s [N, nM]

end SpinArray

/-- A Python runtime error, as surfaced by the code under verification. -/
inductive PyErr where
  | typeError : PyErr
  deriving DecidableEq

/-- Python call semantics for a torch `Tensor` receiver: `Tensor` defines
no `__call__` method, so `t(arg)` raises `TypeError` for every tensor `t`
and every argument. -/
def tensorApply {α β γ : Type*} (_self : α) (_arg : β) : Except PyErr γ :=
  Except.error PyErr.typeError

/-- The body of `SpinArray.mask_` (`mobjs.py` lines 336-344):
`mask_ = mask(self.mask).reshape((1, -1))` — the parameter `mask` (a
tensor) is applied as a function to the stored `self.mask`, and the result
would then be reshaped (shape-only, identity on the flattened data). -/
def SpinArray_mask_ {K : ℕ} (maskArg : Fin K → Bool)
    (selfMask : Fin K → Bool) : Except PyErr (Fin K → Bool) := do
  let r ← tensorApply maskArg selfMask
  pure r

/-- The body of `SpinCube.mask_` (`mobjs.py` line 555): it delegates to
`self.spinarray.mask_(mask)`. -/
def SpinCube_mask_ {K : ℕ} (maskArg : Fin K → Bool)
    (selfMask : Fin K → Bool) : Except PyErr (Fin K → Bool) :=
  SpinArray_mask_ maskArg selfMask

/-- Modelled from the spec (the defining module `mrphy.utils` is not among
the sources at hand): `ctrsub` is the center subscript of an axis of size
`x`, so that the normalized grid coordinates `(arange(x) - ctrsub(x))/x`
are "centered at zero, spanning [-0.5, 0.5) along each spatial axis":
`ctrsub x = ⌊x / 2⌋`. -/
def ctrsub (x : ℕ) : ℕ := x / 2

/-- One normalized grid coordinate (`SpinCube._update_loc_`, `mobjs.py`
line 487): `(arange(x) - ctrsub(x)) / x` at subscript `i`. -/
noncomputable def crdn (x i : ℕ) : ℝ := ((i : ℝ) - (ctrsub x : ℝ)) / (x : ℝ)

/-- A dense spatial position of a three-dimensional `SpinCube` grid. -/
def Idx3 (n1 n2 n3 : ℕ) : Type := Fin n1 × Fin n2 × Fin n3

/-- Row-major enumeration of the dense spatial grid, the traversal order
of boolean mask indexing on a contiguous torch tensor. -/
def allIdx3 (n1 n2 n3 : ℕ) : List (Idx3 n1 n2 n3) :=
  (List.finRange n1).flatMap (fun a =>
    (List.finRange n2).flatMap (fun b =>
      (List.finRange n3).map (fun c => (a, b, c))))

/-- The masked-in spatial positions in row-major order
(`_locn[i][mask[0, ...]]` gathers in this order). -/
def masked3 {n1 n2 n3 : ℕ} (mask : Idx3 n1 n2 n3 → Bool) :
    List (Idx3 n1 n2 n3) :=
  (allIdx3 n1 n2 n3).filter mask

/-- The meshgrid of normalized coordinates (`mobjs.py` lines 487-488):
`_locn[i]` evaluated at a dense position `p` is the normalized coordinate
of `p`'s component along axis `i`. -/
noncomputable def locnAxis {n1 n2 n3 : ℕ} (i : Fin 3) (p : Idx3 n1 n2 n3) : ℝ :=
  if i.val = 0 then crdn n1 p.1.val
  else if i.val = 1 then crdn n2 p.2.1.val
  else crdn n3 p.2.2.val

/-- The body of `SpinCube._update_loc_` (`mobjs.py` lines 480-496):
`loc_[..., i] = fov[:, None, i] * _locn[i][mask[0, ...]][None, ...] +
ofst[:, None, i]` for each axis `i`, i.e. per batch element `n`, compact
spin `j` and axis `i` the location is
`fov[n, i] * locn_i(position of spin j) + ofst[n, i]`. -/
noncomputable def updateLoc {n1 n2 n3 : ℕ} (mask : Idx3 n1 n2 n3 → Bool)
    {N : ℕ} (fov ofst : Fin N → Fin 3 → ℝ) :
    Fin N → Fin (masked3 mask).length → Fin 3 → ℝ :=
  fun n j i => fov n i * locnAxis i ((masked3 mask).get j) + ofst n i

/-- The state of a `SpinCube` relevant to its location invariant: the
per-batch `fov` and `ofst` 3-vectors and the compact location buffer
`loc_` (`mobjs.py` lines 412-414). -/
structure SpinCube (N n1 n2 n3 : ℕ) (mask : Idx3 n1 n2 n3 → Bool) where
  fov : Fin N → Fin 3 → ℝ
  ofst : Fin N → Fin 3 → ℝ
  loc_ : Fin N → Fin (masked3 mask).length → Fin 3 → ℝ

/-- `SpinCube.__init__` (`mobjs.py` lines 416-439): store `fov` and
`ofst`, then compute `loc_` by `_update_loc_()`. -/
noncomputable def SpinCube.init {N n1 n2 n3 : ℕ} (mask : Idx3 n1 n2 n3 → Bool)
    (fov ofst : Fin N → Fin 3 → ℝ) : SpinCube N n1 n2 n3 mask :=
  ⟨fov, ofst, updateLoc mask fov ofst⟩

/-- Assignment to `fov` through `SpinCube.__setattr__` (`mobjs.py` lines
452-478): store the new value, then recompute `loc_` by `_update_loc_()`. -/
noncomputable def SpinCube.setFov {N n1 n2 n3 : ℕ}
    {mask : Idx3 n1 n2 n3 → Bool} (s : SpinCube N n1 n2 n3 mask)
    (v : Fin N → Fin 3 → ℝ) : SpinCube N n1 n2 n3 mask :=
  ⟨v, s.ofst, updateLoc mask v s.ofst⟩

/-- Assignment to `ofst` through `SpinCube.__setattr__` (`mobjs.py` lines
452-478): store the new value, then recompute `loc_` by `_update_loc_()`. -/
noncomputable def SpinCube.setOfst {N n1 n2 n3 : ℕ}
    {mask : Idx3 n1 n2 n3 → Bool} (s : SpinCube N n1 n2 n3 mask)
    (v : Fin N → Fin 3 → ℝ) : SpinCube N n1 n2 n3 mask :=
  ⟨s.fov, v, updateLoc mask s.fov v⟩

/-- The location invariant of claim C5: every entry of the compact
location buffer is `fov[n, i] * g_i + ofst[n, i]`, with `g_i` the
normalized grid coordinate of the spin's dense position along axis `i`. -/
def SpinCube.locInvariant {N n1 n2 n3 : ℕ} {mask : Idx3 n1 n2 n3 → Bool}
    (s : SpinCube N n1 n2 n3 mask) : Prop :=
  ∀ (n : Fin N) (j : Fin (masked3 mask).length) (i : Fin 3),
    s.loc_ n j i = s.fov n i * locnAxis i ((masked3 mask).get j) + s.ofst n i

theorem Vec3.normSq_nonneg (v : Vec3) : 0 ≤ v.normSq := by
  unfold Vec3.normSq; positivity

theorem Vec3.norm_zero_vec : Vec3.norm ⟨0, 0, 0⟩ = 0 := by
  unfold Vec3.norm Vec3.normSq
  norm_num

theorem beff2uϕ_zero_angle (γ2πdt : ℝ) :
    (beff2uϕ ⟨0, 0, 0⟩ γ2πdt).2 = 0 := by
  unfold beff2uϕ
  rw [Vec3.norm_zero_vec]
  ring

theorem relax_one_one (M : Vec3) : relax 1 1 M = M := by
  unfold relax
  cases M
  simp

theorem relax_equilibrium (E1 E2 : ℝ) : relax E1 E2 ⟨0, 0, 1⟩ = ⟨0, 0, 1⟩ := by
  unfold relax
  simp

theorem blochstep_zero_field (γ2πdt E1 E2 : ℝ) (Ms bs : List Vec3)
    (hbs : ∀ b ∈ bs, b = ⟨0, 0, 0⟩) :
    blochstep γ2πdt E1 E2 Ms bs = Ms.map (relax E1 E2) := by
  have hφ : ¬ ∃ p ∈ bs.map (fun x => beff2uϕ x γ2πdt), p.2 ≠ 0 := by
    rintro ⟨p, hp, hne⟩
    rcases List.mem_map.mp hp with ⟨b, hb, rfl⟩
    exact hne (by rw [hbs b hb]; exact beff2uϕ_zero_angle γ2πdt)
  simp only [blochstep, if_neg hφ]

/-- C1: Round-trip of the masked mapping: for every mask and dense array
`X` (per-batch, over the row-major flattened spatial grid, trailing
dimensions absorbed into the element type), `embed (extract X)` equals `X`
at every masked-in position and holds the sentinel (NaN in the source) at
every non-masked position. -/
theorem embed_extract_roundtrip {α : Type*} {N K : ℕ} (mask : Fin K → Bool)
    (sentinel : α) (X : Fin N → Fin K → α) (n : Fin N) (k : Fin K) :
    SpinArray.embed mask sentinel (SpinArray.extract mask X) n k =
      if mask k then X n k else sentinel := by
  by_cases h : mask k
  · rw [if_pos h]
    unfold SpinArray.embed SpinArray.extract
    rw [dif_pos h, List.indexOf_get]
  · rw [if_neg h]
    unfold SpinArray.embed
    rw [dif_neg h]

/-- C6: Coordinate translation correctness for an indexing expression
`(b, k, trail)` (batch index, flattened spatial index, trailing indices)
whose spatial index selects a masked-in position: `crds_` keeps `b` and
`trail` unchanged and replaces `k` by the corresponding compact spin
index `j`, and the compact counterpart of `v` agrees at the translated
coordinates: `v_[b, j] = v[b, k]`. -/
theorem crds_translation_correct {α : Type*} {N K : ℕ} (mask : Fin K → Bool)
    (v : Fin N → Fin K → α) (b : Fin N) (k : Fin K) (trail : List ℕ)
    (hk : mask k = true) :
    ∃ j : Fin (SpinArray.nM mask),
      SpinArray.crds_ mask b.val k trail = (b.val, [(j.val : ℤ)], trail) ∧
      SpinArray.extract mask v b j = v b k := by
  have hmem : k ∈ SpinArray.maskedIdx mask :=
    List.mem_filter.mpr ⟨List.mem_finRange k, hk⟩
  refine ⟨⟨(SpinArray.maskedIdx mask).indexOf k,
           List.indexOf_lt_length.mpr hmem⟩, ?_, ?_⟩
  · unfold SpinArray.crds_ SpinArray.compactIndexTable
    rw [if_pos hk]
    have : ((SpinArray.maskedIdx mask).indexOf k : ℤ) ≠ -1 := by
      omega
    simp [List.filter, this]
  · unfold SpinArray.extract
    rw [List.indexOf_get]

/-- C2: freeprec closed-form law.  With both relaxation constants and the
off-resonance present, the result is the transverse rotation by
`φ = -2π·Δf·dur` about z (positive `Δf` dephasing clockwise) followed by
relaxation `(E2·x', E2·y', E1·z - (E1 - 1))` with `E1 = exp(-dur/T1)`,
`E2 = exp(-dur/T2)`; with `Δf` absent the rotation is skipped; with both
of `T1`, `T2` absent the relaxation is skipped (`E1 = E2 = 1`). -/
theorem freeprec_closed_form (M : Vec3) (dur t1 t2 δf : ℝ) :
    (freeprec M dur (some t1) (some t2) (some δf) =
      some ⟨Real.exp (-dur / t2) *
              (Real.cos (-(2 * Real.pi) * δf * dur) * M.x -
               Real.sin (-(2 * Real.pi) * δf * dur) * M.y),
            Real.exp (-dur / t2) *
              (Real.sin (-(2 * Real.pi) * δf * dur) * M.x +
               Real.cos (-(2 * Real.pi) * δf * dur) * M.y),
            Real.exp (-dur / t1) * M.z - (Real.exp (-dur / t1) - 1)⟩) ∧
    (freeprec M dur (some t1) (some t2) none =
      some ⟨Real.exp (-dur / t2) * M.x, Real.exp (-dur / t2) * M.y,
            Real.exp (-dur / t1) * M.z - (Real.exp (-dur / t1) - 1)⟩) ∧
    (freeprec M dur none none (some δf) =
      some ⟨Real.cos (-(2 * Real.pi) * δf * dur) * M.x -
              Real.sin (-(2 * Real.pi) * δf * dur) * M.y,
            Real.sin (-(2 * Real.pi) * δf * dur) * M.x +
              Real.cos (-(2 * Real.pi) * δf * dur) * M.y,
            M.z⟩) := by
  refine ⟨?_, ?_, rfl⟩
  · simp only [freeprec, Option.isNone_some, if_true, Option.some.injEq,
      Vec3.mk.injEq, true_and]
    ring
  · simp only [freeprec, Option.isNone_some, if_true, Option.some.injEq,
      Vec3.mk.injEq, true_and]
    ring

theorem map_relax_one_one (Ms : List Vec3) : Ms.map (relax 1 1) = Ms := by
  induction Ms with
  | nil => rfl
  | cons M rest ih => rw [List.map_cons, relax_one_one, ih]

/-- C3: Zero-field fixed point.  With every per-spin field zero at every
time step and no relaxation (`T1 = T2 = none`, so `E1 = E2 = 1`),
`blochsim` returns the magnetization unchanged: every rotation angle is 0
so the rotation sub-step is skipped, and the relaxation sub-step is the
identity. -/
theorem blochsim_zero_field_fixed_point (Ms : List Vec3)
    (Beff : List (List Vec3)) (γ dt : ℝ)
    (hB : ∀ bs ∈ Beff, ∀ b ∈ bs, b = ⟨0, 0, 0⟩) :
    blochsim Ms Beff none none γ dt = Ms := by
  unfold blochsim
  induction Beff generalizing Ms with
  | nil => rfl
  | cons bs rest ih =>
    rw [List.foldl_cons, blochstep_zero_field _ _ _ _ _
        (hB bs (List.mem_cons_self bs rest)), map_relax_one_one]
    exact ih Ms (fun bs' h' => hB bs' (List.mem_cons_of_mem _ h'))

/-- Witness for C3 at a concrete input: one spin, one time step, zero
field. -/
theorem blochsim_zero_field_fixed_point_witness :
    blochsim [⟨0, 0, 1⟩] [[⟨0, 0, 0⟩]] none none 1 1 = [⟨0, 0, 1⟩] :=
  blochsim_zero_field_fixed_point [⟨0, 0, 1⟩] [[⟨0, 0, 0⟩]] 1 1
    (by intro bs hbs b hb; simp at hbs hb; rw [hbs] at hb; simpa using hb)

/-- C7: Both-or-neither relaxation spec: `freeprec` fails (the source's
`assert((T1 is None) == (T2 is None))` raises) if and only if exactly one
of `T1` and `T2` is supplied; otherwise it returns a result. -/
theorem freeprec_relaxation_spec (M : Vec3) (dur : ℝ) (T1 T2 Δf : Option ℝ) :
    freeprec M dur T1 T2 Δf = none ↔ ¬ (T1 = none ↔ T2 = none) := by
  cases T1 <;> cases T2 <;>
    simp [freeprec, Option.isNone_some, Option.isNone_none]

theorem blochstep_iter_equilibrium (γ2πdt E1 E2 : ℝ) (n : ℕ) :
    (List.replicate n [(⟨0, 0, 0⟩ : Vec3)]).foldl
      (fun Ms bs => blochstep γ2πdt E1 E2 Ms bs) [⟨0, 0, 1⟩] = [⟨0, 0, 1⟩] := by
  induction n with
  | zero => rfl
  | succ m ih =>
    rw [List.replicate_succ, List.foldl_cons,
        blochstep_zero_field _ _ _ _ _ (by intro b hb; simpa using hb)]
    simp only [List.map_cons, List.map_nil, relax_equilibrium]
    exact ih

/-- C8: Equilibrium scenario: a single spin at `M = (0, 0, 1)` with
`T1 = 1` s, `T2 = 0.04` s and zero applied field at every one of 512
steps of `dt = 1e-3` s is returned unchanged by `blochsim` (with the
gyro-ratio at its default value): zero field skips the rotation sub-step,
and `(E2·0, E2·0, E1·1 - (E1 - 1)) = (0, 0, 1)` fixes the equilibrium
state at every relaxation sub-step. -/
theorem blochsim_equilibrium_scenario :
    blochsim [⟨0, 0, 1⟩] (List.replicate 512 [⟨0, 0, 0⟩])
      (some 1) (some (4 / 100)) (42576 / 10) (1 / 1000) = [⟨0, 0, 1⟩] := by
  unfold blochsim
  exact blochstep_iter_equilibrium _ _ _ 512

theorem Vec3.normSq_pos (b : Vec3) (hb : b ≠ ⟨0, 0, 0⟩) : 0 < b.normSq := by
  by_contra h
  push_neg at h
  have h0 : b.normSq = 0 := le_antisymm h (Vec3.normSq_nonneg b)
  unfold Vec3.normSq at h0
  apply hb
  have hx : b.x = 0 := by
    have : b.x ^ 2 = 0 := by nlinarith [sq_nonneg b.y, sq_nonneg b.z]
    exact pow_eq_zero_iff (two_ne_zero).symm.symm |>.mp this
  have hy : b.y = 0 := by
    have : b.y ^ 2 = 0 := by nlinarith [sq_nonneg b.x, sq_nonneg b.z]
    exact pow_eq_zero_iff (two_ne_zero).symm.symm |>.mp this
  have hz : b.z = 0 := by
    have : b.z ^ 2 = 0 := by nlinarith [sq_nonneg b.x, sq_nonneg b.y]
    exact pow_eq_zero_iff (two_ne_zero).symm.symm |>.mp this
  cases b
  simp_all

theorem beff2uϕ_axis_unit (b : Vec3) (γ2πdt : ℝ) (hb : b ≠ ⟨0, 0, 0⟩) :
    Vec3.normSq (beff2uϕ b γ2πdt).1 = 1 := by
  have hpos := Vec3.normSq_pos b hb
  have hs : Real.sqrt b.normSq ^ 2 = b.normSq := Real.sq_sqrt (le_of_lt hpos)
  have key : ((Real.sqrt b.normSq)⁻¹) ^ 2 * b.normSq = 1 := by
    rw [inv_pow, hs]
    exact inv_mul_cancel₀ (ne_of_gt hpos)
  show Vec3.normSq (Vec3.smul (Vec3.norm b)⁻¹ b) = 1
  calc Vec3.normSq (Vec3.smul (Vec3.norm b)⁻¹ b)
      = ((Real.sqrt b.normSq)⁻¹) ^ 2 * b.normSq := by
        unfold Vec3.norm Vec3.normSq Vec3.smul
        ring
    _ = 1 := key

theorem uϕrot_normSq (u : Vec3) (φ : ℝ) (M : Vec3) (hu : u.normSq = 1) :
    (uϕrot u φ M).normSq = M.normSq := by
  have h1 : Real.sin φ ^ 2 + Real.cos φ ^ 2 = 1 := Real.sin_sq_add_cos_sq φ
  unfold Vec3.normSq at hu ⊢
  unfold uϕrot Vec3.add Vec3.smul Vec3.cross Vec3.dot
  linear_combination
    ((M.x ^ 2 + M.y ^ 2 + M.z ^ 2) -
      (u.x * M.x + u.y * M.y + u.z * M.z) ^ 2) * h1 +
    (Real.sin φ ^ 2 * (M.x ^ 2 + M.y ^ 2 + M.z ^ 2) +
      (1 - Real.cos φ) ^ 2 * (u.x * M.x + u.y * M.y + u.z * M.z) ^ 2) * hu

/-- C4: Rotation preserves magnitude: for every magnetization `M` and
every nonzero field `b`, the rotation sub-step of one simulation step —
Rodrigues' rotation of `M` about the unit axis `b/|b|` by the angle
`φ = |γ2πdt|·|b|` produced by `beff2uϕ` — preserves the Euclidean norm of
the magnetization (relaxation absent, `E1 = E2 = 1`, touches nothing
here). -/
theorem rotation_preserves_magnitude (M b : Vec3) (γ2πdt : ℝ)
    (hb : b ≠ ⟨0, 0, 0⟩) :
    Vec3.norm (uϕrot (beff2uϕ b γ2πdt).1 (beff2uϕ b γ2πdt).2 M) =
      Vec3.norm M := by
  unfold Vec3.norm
  rw [uϕrot_normSq _ _ M (beff2uϕ_axis_unit b γ2πdt hb)]

/-- Witness for C4 at a concrete input: field along x, magnetization along
z. -/
theorem rotation_preserves_magnitude_witness :
    (⟨1, 0, 0⟩ : Vec3) ≠ ⟨0, 0, 0⟩ ∧
    Vec3.norm (uϕrot (beff2uϕ ⟨1, 0, 0⟩ 1).1 (beff2uϕ ⟨1, 0, 0⟩ 1).2
        ⟨0, 0, 1⟩) = Vec3.norm ⟨0, 0, 1⟩ :=
  ⟨by simp, rotation_preserves_magnitude ⟨0, 0, 1⟩ ⟨1, 0, 0⟩ 1 (by simp)⟩

/-- C5: Location invariant of SpinCube: after construction and after every
assignment to `fov` or `ofst`, the compact location buffer satisfies
`loc_[n, spin, i] = fov[n, i] * g_i + ofst[n, i]` with `g_i` the
normalized grid coordinate of the spin's dense position along axis `i`;
and the normalized grid coordinates are centered at zero, lying in
`[-0.5, 0.5)` along each spatial axis. -/
theorem spincube_loc_invariant {N n1 n2 n3 : ℕ} (mask : Idx3 n1 n2 n3 → Bool) :
    (∀ fov ofst : Fin N → Fin 3 → ℝ,
      (SpinCube.init mask fov ofst).locInvariant) ∧
    (∀ (s : SpinCube N n1 n2 n3 mask) (v : Fin N → Fin 3 → ℝ),
      (s.setFov v).locInvariant) ∧
    (∀ (s : SpinCube N n1 n2 n3 mask) (v : Fin N → Fin 3 → ℝ),
      (s.setOfst v).locInvariant) ∧
    (∀ (x : ℕ) (i : Fin x),
      -(1 / 2 : ℝ) ≤ crdn x i.val ∧ crdn x i.val < 1 / 2) := by
  refine ⟨fun fov ofst n j i => rfl, fun s v n j i => rfl,
    fun s v n j i => rfl, ?_⟩
  intro x i
  have hxpos : 0 < (x : ℝ) := by exact_mod_cast i.pos
  have h1n : 2 * (x / 2) ≤ x := by omega
  have h2n : x ≤ 2 * (x / 2) + 1 := by omega
  have h1 : 2 * ((x / 2 : ℕ) : ℝ) ≤ (x : ℝ) := by exact_mod_cast h1n
  have h2 : (x : ℝ) ≤ 2 * ((x / 2 : ℕ) : ℝ) + 1 := by exact_mod_cast h2n
  have hi : (i.val : ℝ) + 1 ≤ (x : ℝ) := by exact_mod_cast i.isLt
  have hi0 : 0 ≤ (i.val : ℝ) := Nat.cast_nonneg _
  unfold crdn ctrsub
  constructor
  · rw [le_div_iff₀ hxpos]
    linarith
  · rw [div_lt_iff₀ hxpos]
    linarith

/-- C9: Compact-attribute shape invariant: whenever the attribute-setter
shape computation of `SpinArray.__setattr__` succeeds — for dense input,
compact input, a scalar or one value per batch element — the stored shape
is exactly `(N, nM)` for `T1_`/`T2_`/`γ_` and `(N, nM, 3)` for `M_`;
smaller inputs are broadcast (expanded) to per-spin size. -/
theorem setattr_compact_shape (shape : List ℕ) (nM : ℕ) (isM isDense : Bool)
    (vshape out : List ℕ)
    (h : SpinArray.setattrShape shape nM isM isDense vshape = some out) :
    out = if isM then [shape.headD 0, nM, 3] else [shape.headD 0, nM] := by
  unfold SpinArray.setattrShape SpinArray.expandShape at h
  repeat split at h
  all_goals (try simp_all)
  all_goals (repeat split at h)
  all_goals (try simp_all)
  all_goals (repeat split at h)
  all_goals simp_all

/-- Witness for C9 at a concrete input: a scalar assigned to `T1_` on a
`(1, 2, 2)`-shaped array with 3 masked-in spins is stored as `(1, 3)`. -/
theorem setattr_compact_shape_witness :
    SpinArray.setattrShape [1, 2, 2] 3 false false [] = some [1, 3] ∧
    ([1, 3] : List ℕ) = (if (false : Bool) then [1, 3, 3] else [1, 3]) :=
  ⟨rfl, setattr_compact_shape [1, 2, 2] 3 false false [] [1, 3] rfl⟩

/-- Witness for C6 at a concrete input: all-true mask over two dense
positions, translating the dense coordinates `(0, 1, [])`. -/
theorem crds_translation_correct_witness :
    ∃ j : Fin (SpinArray.nM (fun _ : Fin 2 => true)),
      SpinArray.crds_ (fun _ : Fin 2 => true) (0 : Fin 1).val (1 : Fin 2) []
          = ((0 : Fin 1).val, [(j.val : ℤ)], []) ∧
        SpinArray.extract (fun _ : Fin 2 => true)
            (fun (_ : Fin 1) (k : Fin 2) => k.val) 0 j =
          (fun (_ : Fin 1) (k : Fin 2) => k.val) 0 1 :=
  crds_translation_correct (fun _ : Fin 2 => true)
    (fun (_ : Fin 1) (k : Fin 2) => k.val) 0 1 [] rfl

/-- C10: `SpinArray.mask_` (and `SpinCube.mask_`, which delegates to it)
fails for every tensor argument: the body applies the argument as a
function to the stored mask (`mask(self.mask)`), and a torch Tensor is
not callable, so a `TypeError` is raised and no compact mask is ever
returned. -/
theorem mask_always_fails {K : ℕ} (maskArg selfMask : Fin K → Bool) :
    SpinArray_mask_ maskArg selfMask = Except.error PyErr.typeError ∧
    SpinCube_mask_ maskArg selfMask = Except.error PyErr.typeError :=
  ⟨rfl, rfl⟩
